import Mathlib

/-!
Verification of the gobayeux Bayeux-protocol client against its
natural-language specification.

The Go code is shallowly embedded: Go strings become `List Char`
(`GoStr`), Go's `strings` helpers become recursive Lean functions with
the same semantics, fallible operations (string slicing that can panic,
`strconv.Atoi`, parsing) return `Option`, and the stateful pieces
(connection state machine, client session state, the poll loop's
fan-out) are written as explicit state-passing functions.
-/

/-- A Go string, represented as its list of characters. -/
abbrev GoStr := List Char

/-- A Bayeux channel (Go type `Channel`, a string). -/
abbrev BChannel := GoStr

/-- Go `strings.HasPrefix(s, pre)`: `s` starts with `pre`. -/
def goStartsWith : GoStr → GoStr → Bool
  | _, [] => true
  | [], _ :: _ => false
  | c :: cs, p :: ps => c = p && goStartsWith cs ps

/-- Go `strings.HasSuffix(s, suf)`: `s` ends with `suf` (checked on the
reversed strings). -/
def goHasSuffix (s suf : GoStr) : Bool :=
  goStartsWith s.reverse suf.reverse

/-- Go `strings.Contains(s, sub)` for a one-character needle `c`. -/
def goContainsChar : GoStr → Char → Bool
  | [], _ => false
  | x :: xs, c => x = c || goContainsChar xs c

/-- Go `strings.Count(s, sep)` for a one-character separator `c`. -/
def goCount : GoStr → Char → Nat
  | [], _ => 0
  | x :: xs, c => (if x = c then 1 else 0) + goCount xs c

/-- Go `strings.LastIndexByte(s, c)`: index of the last occurrence of
`c` in `s`, `none` standing for Go's `-1`. -/
def goLastIndexByte : GoStr → Char → Option Nat
  | [], _ => none
  | x :: xs, c =>
    match goLastIndexByte xs c with
    | some i => some (i + 1)
    | none => if x = c then some 0 else none

/-- The Go slice expression `s[i:]`. It panics (here: `none`) when
`i > len(s)`. -/
def goSliceFrom (s : GoStr) (i : Nat) : Option GoStr :=
  if i ≤ s.length then some (s.drop i) else none

/-! Channel operations, from `channel.go`. -/

/-- `Channel.HasWildcard`: the channel ends with `*`. -/
def HasWildcard (c : BChannel) : Bool :=
  goHasSuffix c ['*']

/-- `Channel.IsValid`: invalid when the string contains a `*` but does
not end with one, or does not start with `/`. -/
def IsValid (c : BChannel) : Bool :=
  if goContainsChar c '*' && !HasWildcard c then false
  else if !goStartsWith c ['/'] then false
  else true

/-- `Channel.matchAgainstWildcards`. `index` is the position of the last
`/` of the pattern; the prefix compared against `other` is the pattern
UP TO BUT EXCLUDING that `/` (`self[:index]`), and the tail of `other`
is then taken from `index+1`, which panics (`none`) when `other` is
shorter than `index+1`. -/
def matchAgainstWildcards (c : BChannel) (other : GoStr) : Option Bool :=
  match goLastIndexByte c '/' with
  | none => some false
  | some index =>
    let pre := c.take index
    if !goStartsWith other pre then some false
    else
      let wildcards := c.drop (index + 1)
      match goSliceFrom other (index + 1) with
      | none => none
      | some startMatchingWildcards =>
        if wildcards = ['*'] then some (goCount startMatchingWildcards '/' == 0)
        else if wildcards = ['*', '*'] then some true
        else some false

/-- `Channel.MatchString`: wildcard matching when the pattern ends in
`*`, byte equality otherwise. `none` is a panic. -/
def MatchString (c : BChannel) (other : GoStr) : Option Bool :=
  if HasWildcard c then matchAgainstWildcards c other
  else some (c == other)

/-- `Channel.Match`, which just delegates to `MatchString`. -/
def Match (c : BChannel) (other : BChannel) : Option Bool :=
  MatchString c other

/-! Basic lemmas about the embedded Go string helpers. -/

theorem goStartsWith_refl (s : GoStr) : goStartsWith s s = true := by
  induction s with
  | nil => rfl
  | cons x xs ih => simp [goStartsWith, ih]

theorem goStartsWith_take (s : GoStr) (n : Nat) :
    goStartsWith s (s.take n) = true := by
  induction s generalizing n with
  | nil => cases n <;> rfl
  | cons x xs ih => cases n with
    | zero => rfl
    | succ n => simp [goStartsWith, ih]

theorem goStartsWith_iff (s pre : GoStr) :
    goStartsWith s pre = true ↔ ∃ t, s = pre ++ t := by
  induction pre generalizing s with
  | nil => simp [goStartsWith]
  | cons p ps ih =>
    cases s with
    | nil => simp [goStartsWith]
    | cons c cs =>
      simp only [goStartsWith, Bool.and_eq_true, decide_eq_true_eq, ih]
      constructor
      · rintro ⟨rfl, t, rfl⟩; exact ⟨t, rfl⟩
      · rintro ⟨t, h⟩
        cases h
        exact ⟨rfl, t, rfl⟩

theorem goStartsWith_nil (s : GoStr) : goStartsWith s [] = true := by
  cases s <;> rfl

theorem goStartsWith_singleton (s : GoStr) (c : Char) :
    goStartsWith s [c] = true ↔ s.head? = some c := by
  cases s with
  | nil => simp [goStartsWith]
  | cons x xs => simp [goStartsWith, goStartsWith_nil]

theorem goHasSuffix_star_iff (s : GoStr) :
    goHasSuffix s ['*'] = true ↔ s.getLast? = some '*' := by
  rw [goHasSuffix, show (['*'] : GoStr).reverse = ['*'] from rfl,
    goStartsWith_singleton, List.head?_reverse]

theorem goContainsChar_iff (s : GoStr) (c : Char) :
    goContainsChar s c = true ↔ c ∈ s := by
  induction s with
  | nil => simp [goContainsChar]
  | cons x xs ih =>
    simp only [goContainsChar, Bool.or_eq_true, decide_eq_true_eq, ih,
      List.mem_cons]
    constructor
    · rintro (h | h)
      · exact Or.inl h.symm
      · exact Or.inr h
    · rintro (h | h)
      · exact Or.inl h.symm
      · exact Or.inr h

theorem goCount_eq_count (s : GoStr) (c : Char) :
    goCount s c = s.count c := by
  induction s with
  | nil => rfl
  | cons x xs ih =>
    simp only [goCount, ih, List.count_cons, beq_iff_eq]
    by_cases h : x = c
    · subst h
      simp [Nat.add_comm]
    · have h' : ¬ c = x := fun hc => h hc.symm
      simp [h, h']

theorem goLastIndexByte_lt_length (s : GoStr) (c : Char) (i : Nat)
    (h : goLastIndexByte s c = some i) : i < s.length := by
  induction s generalizing i with
  | nil => simp [goLastIndexByte] at h
  | cons x xs ih =>
    simp only [goLastIndexByte] at h
    cases hx : goLastIndexByte xs c with
    | some j =>
      rw [hx] at h
      simp only [Option.some.injEq] at h
      subst h
      have hj := ih j hx
      simp only [List.length_cons]
      omega
    | none =>
      rw [hx] at h
      by_cases hc : x = c
      · simp only [if_pos hc, Option.some.injEq] at h
        subst h
        simp
      · simp [hc] at h

theorem hasWildcard_of_lastSegment (c : BChannel) (i : Nat)
    (hseg : c.drop (i + 1) = ['*'] ∨ c.drop (i + 1) = ['*', '*']) :
    HasWildcard c = true := by
  have hc : c = c.take (i + 1) ++ c.drop (i + 1) :=
    (List.take_append_drop _ _).symm
  rcases hseg with h | h <;>
    rw [HasWildcard, goHasSuffix_star_iff, hc, h, List.getLast?_append] <;> rfl

theorem drop_length_bound (c : BChannel) (i : Nat)
    (hseg : c.drop (i + 1) = ['*'] ∨ c.drop (i + 1) = ['*', '*']) :
    i + 1 < c.length := by
  have hne : c.drop (i + 1) ≠ [] := by
    rcases hseg with h | h <;> simp [h]
  have := mt List.drop_eq_nil_of_le hne
  omega

theorem matchAgainstWildcards_eq (c other : GoStr) (i : Nat)
    (hidx : goLastIndexByte c '/' = some i) :
    matchAgainstWildcards c other =
      if goStartsWith other (c.take i) = false then some false
      else if other.length < i + 1 then none
      else if c.drop (i + 1) = ['*'] then
        some (decide ((other.drop (i + 1)).count '/' = 0))
      else if c.drop (i + 1) = ['*', '*'] then some true
      else some false := by
  have hbeq : ∀ n : Nat, (n == 0) = decide (n = 0) := fun n => by
    cases n <;> rfl
  rw [matchAgainstWildcards, hidx]
  cases hp : goStartsWith other (c.take i) with
  | false => simp [hp]
  | true =>
    simp only [hp, Bool.not_true, Bool.false_eq_true, if_false,
      if_neg (by simp : ¬ (true = false)), goSliceFrom]
    by_cases hlen : i + 1 ≤ other.length
    · rw [if_pos hlen, if_neg (show ¬ other.length < i + 1 by omega)]
      simp only [goCount_eq_count, hbeq]
    · rw [if_neg hlen, if_pos (show other.length < i + 1 by omega)]

theorem hasWildcard_iff (c : BChannel) :
    HasWildcard c = true ↔ c.getLast? = some '*' :=
  goHasSuffix_star_iff c

/-! ## C10: wildcard matching panics on candidates shorter than the
pattern's prefix -/

/-- C10: CONTRARY to the claim, the tail extraction `other[index+1:]` in
`matchAgainstWildcards` is NOT always within the candidate's bounds:
for the pattern `/foo/*` and the candidate `/foo`, the prefix check
(against `/foo`, the pattern up to but excluding its final `/`) passes,
and `other[5:]` is then taken on a 4-character string, which panics in
Go (modelled as `none`). -/
theorem match_short_candidate_panics :
    goStartsWith ("/foo".toList) (("/foo/*".toList).take 4) = true ∧
    Match ("/foo/*".toList) ("/foo".toList) = none ∧
    MatchString ("/foo/*".toList) ("/foo".toList) = none :=
  ⟨rfl, rfl, rfl⟩

/-! ## C5: IsValid and misplaced wildcards -/

/-- C5 counterexample: CONTRARY to the claim (and the spec's boundary
test), `Channel("/foo/***").IsValid()` returns `true`: the code only
checks that a channel containing `*` ends in `*`, not that the final
segment is exactly `*` or `**`. -/
theorem isValid_triple_star_cex : IsValid ("/foo/***".toList) = true :=
  rfl

/-- C5 amended: `IsValid` returns `false` exactly for channels that do
not start with `/` or that contain a `*` but do not end in `*`; any
channel beginning with `/` and ending in `*` is accepted no matter where
its other wildcards sit (hence `/foo/***` is valid). -/
theorem isValid_characterization (c : BChannel) :
    IsValid c = true ↔
      c.head? = some '/' ∧ ('*' ∈ c → c.getLast? = some '*') := by
  rw [IsValid]
  split_ifs with h1 h2
  · simp only [Bool.and_eq_true, Bool.not_eq_true'] at h1
    obtain ⟨hmem, hnw⟩ := h1
    rw [goContainsChar_iff] at hmem
    constructor
    · intro h
      exact absurd h (by simp)
    · rintro ⟨-, himp⟩
      have hlast := (hasWildcard_iff c).mpr (himp hmem)
      rw [HasWildcard] at hnw
      rw [HasWildcard] at hlast
      rw [hnw] at hlast
      exact absurd hlast (by simp)
  · rw [Bool.not_eq_true'] at h2
    constructor
    · intro h
      exact absurd h (by simp)
    · rintro ⟨hhead, -⟩
      have := (goStartsWith_singleton c '/').mpr hhead
      rw [h2] at this
      exact absurd this (by simp)
  · simp only [Bool.and_eq_true, Bool.not_eq_true', not_and] at h1
    rw [Bool.not_eq_true', Bool.not_eq_false] at h2
    constructor
    · intro _
      refine ⟨(goStartsWith_singleton c '/').mp h2, fun hmem => ?_⟩
      have hcont : goContainsChar c '*' = true :=
        (goContainsChar_iff c '*').mpr hmem
      have hw : ¬ HasWildcard c = false := h1 hcont
      rw [Bool.not_eq_false] at hw
      exact (hasWildcard_iff c).mp hw
    · intro _
      rfl

/-! ## C6: self-matching of valid channels -/

/-- C6 counterexample: CONTRARY to the claim, not every valid channel
matches itself: `/foo*` is valid (it starts with `/` and ends in `*`),
but its final segment `foo*` is neither `*` nor `**`, so the wildcard
matcher's switch falls through to `false`. -/
theorem valid_channel_not_self_match_cex :
    IsValid ("/foo*".toList) = true ∧
    Match ("/foo*".toList) ("/foo*".toList) = some false :=
  ⟨rfl, rfl⟩

/-- C6 amended: every valid channel whose text after its final `/` is
exactly `*`, exactly `**`, or free of wildcards matches itself. (Valid
channels such as `/foo*` whose final segment merely ends in `*` do
not.) -/
theorem valid_channel_self_match_amended (c : BChannel)
    (h : IsValid c = true)
    (hseg : '*' ∉ c ∨ ∃ i, goLastIndexByte c '/' = some i ∧
      (c.drop (i + 1) = ['*'] ∨ c.drop (i + 1) = ['*', '*'])) :
    Match c c = some true := by
  rcases hseg with hnw | ⟨i, hidx, hseg⟩
  · have hw : HasWildcard c = false := by
      cases hw : HasWildcard c
      · rfl
      · exact absurd (List.mem_of_getLast?_eq_some ((hasWildcard_iff c).mp hw)) hnw
    rw [Match, MatchString, hw]
    simp
  · have hw := hasWildcard_of_lastSegment c i hseg
    have hlen := drop_length_bound c i hseg
    rw [Match, MatchString, hw]
    simp only [if_true]
    rw [matchAgainstWildcards_eq c c i hidx,
      if_neg (by simp [goStartsWith_take]),
      if_neg (show ¬ c.length < i + 1 by omega)]
    rcases hseg with h1 | h2
    · rw [if_pos h1, h1]
      simp
    · rw [if_neg (by simp [h2]), if_pos h2]

/-- C6 witness: the amended theorem applied to the three shapes of
channel it covers, at concrete inputs. -/
theorem valid_channel_self_match_amended_witness :
    Match ("/foo/*".toList) ("/foo/*".toList) = some true ∧
    Match ("/foo/**".toList) ("/foo/**".toList) = some true ∧
    Match ("/foo/bar".toList) ("/foo/bar".toList) = some true :=
  ⟨valid_channel_self_match_amended _ (by decide)
      (Or.inr ⟨4, by decide, Or.inl (by decide)⟩),
    valid_channel_self_match_amended _ (by decide)
      (Or.inr ⟨4, by decide, Or.inr (by decide)⟩),
    valid_channel_self_match_amended _ (by decide) (Or.inl (by decide))⟩

/-! ## C4: the wildcard matching rules -/

/-- C4 counterexample: CONTRARY to the claim, a candidate that does not
start with the pattern's prefix up to AND INCLUDING its final `/` can
still match: the code only compares the prefix up to (excluding) the
final `/`, so `/foo/*` matches `/fooXbar` even though `/fooXbar` does
not start with `/foo/`. -/
theorem match_wildcard_skips_slash_cex :
    goStartsWith ("/fooXbar".toList) ("/foo/".toList) = false ∧
    Match ("/foo/*".toList) ("/fooXbar".toList) = some true :=
  ⟨rfl, rfl⟩

/-- C4 amended: for a pattern whose final segment (after the last `/`,
at index `i`) is `*` or `**`: if the candidate does not start with the
pattern's prefix up to but EXCLUDING the final `/`, Match returns
false; otherwise, if the candidate is shorter than `i + 1` characters,
Match panics; otherwise, for `*`, Match returns true iff the
candidate's tail after position `i` contains no `/` (the tail may be
empty); for `**`, Match returns true. -/
theorem match_wildcard_amended_spec (c other : GoStr) (i : Nat)
    (hidx : goLastIndexByte c '/' = some i)
    (hseg : c.drop (i + 1) = ['*'] ∨ c.drop (i + 1) = ['*', '*']) :
    Match c other =
      if goStartsWith other (c.take i) = false then some false
      else if other.length < i + 1 then none
      else if c.drop (i + 1) = ['*'] then
        some (decide ((other.drop (i + 1)).count '/' = 0))
      else some true := by
  have hw := hasWildcard_of_lastSegment c i hseg
  rw [Match, MatchString, hw]
  simp only [if_true]
  rw [matchAgainstWildcards_eq c other i hidx]
  rcases hseg with h1 | h2
  · simp [h1]
  · have hne : c.drop (i + 1) ≠ ['*'] := by simp [h2]
    simp [h2, hne]

/-- C4 witness: the amended rule applied to the pattern `/foo/*` and
the candidate `/foo/bar` (no `/` in the tail `bar`, so it matches). -/
theorem match_wildcard_amended_spec_witness :
    Match ("/foo/*".toList) ("/foo/bar".toList) = some true := by
  have h := match_wildcard_amended_spec ("/foo/*".toList)
    ("/foo/bar".toList) 4 (by decide) (Or.inl (by decide))
  rw [h]
  decide

/-! ## Connection state machine, from `state_machine.go` -/

/-- State constant `unconnected` (the Go `int32` value 0). -/
def unconnected : Int := 0

/-- State constant `connecting` (the Go `int32` value 1). -/
def connecting : Int := 1

/-- State constant `connected` (the Go `int32` value 2). -/
def connected : Int := 2

/-- Event constant `handshakeSent`. -/
def handshakeSent : String := "handshake request sent"

/-- Event constant `timeout`. -/
def timeoutEvent : String := "Timeout"

/-- Event constant `successfullyConnected`. -/
def successfullyConnected : String := "Successful connect response"

/-- Event constant `disconnectSent`. -/
def disconnectSent : String := "Disconnect request sent"

/-- The typed errors `ProcessEvent` can return: `BadHandshakeError`,
`BadConnectionError` (each recording the current, expected-from and to
states, as built by `newBadHanshake` / `newBadConnection`) and
`UnknownEventTypeError` (recording the event). -/
inductive StateMachineError where
  | badHandshake (current fromState toState : Int)
  | badConnection (current fromState toState : Int)
  | unknownEventType (event : String)
deriving DecidableEq

/-- `ConnectionStateMachine.ProcessEvent`, as a function from the event
and the current state to the returned error (if any) and the new state.
The Go compare-and-swap on the `int32` cell succeeds exactly when the
current state equals the expected one. -/
def ProcessEvent (e : String) (s : Int) : Option StateMachineError × Int :=
  if e = handshakeSent then
    if s = unconnected then (none, connecting)
    else (some (.badHandshake s unconnected connecting), s)
  else if e = timeoutEvent then (none, unconnected)
  else if e = successfullyConnected then
    if s = connecting then (none, connected)
    else (some (.badConnection s connecting connected), s)
  else if e = disconnectSent then
    if s = connected || s = connecting then (none, unconnected) else (none, s)
  else (some (.unknownEventType e), s)

/-- The state reached by feeding a sequence of events to a machine
started in `UNCONNECTED` (the state `NewConnectionStateMachine` sets). -/
def runEvents (evs : List String) : Int :=
  evs.foldl (fun s e => (ProcessEvent e s).2) unconnected

theorem runEvents_mem (evs : List String) :
    runEvents evs = unconnected ∨ runEvents evs = connecting ∨
      runEvents evs = connected := by
  suffices h : ∀ s, (s = unconnected ∨ s = connecting ∨ s = connected) →
      ∀ evs : List String,
        (evs.foldl (fun s e => (ProcessEvent e s).2) s = unconnected ∨
          evs.foldl (fun s e => (ProcessEvent e s).2) s = connecting ∨
          evs.foldl (fun s e => (ProcessEvent e s).2) s = connected) by
    exact h unconnected (Or.inl rfl) evs
  intro s hs evs
  induction evs generalizing s with
  | nil => simpa using hs
  | cons e evs ih =>
    refine ih _ ?_
    unfold ProcessEvent
    beta_reduce
    split_ifs <;>
      simp_all [unconnected, connecting, connected]

/-- C2: on every state reachable from UNCONNECTED, `ProcessEvent`
implements exactly the transition table: `handshakeSent` moves
UNCONNECTED to CONNECTING and otherwise returns the bad-handshake
error; `successfullyConnected` moves CONNECTING to CONNECTED and
otherwise returns the bad-connection error; `timeout` always moves to
UNCONNECTED; `disconnectSent` moves CONNECTING or CONNECTED to
UNCONNECTED and is a no-op in UNCONNECTED; any other event returns
`UnknownEventTypeError`; and every call that returns an error leaves
the state unchanged. -/
theorem processEvent_transition_table (evs : List String) (e : String)
    (s : Int) (hs : s = runEvents evs) :
    (ProcessEvent handshakeSent s =
      if s = unconnected then (none, connecting)
      else (some (.badHandshake s unconnected connecting), s)) ∧
    (ProcessEvent successfullyConnected s =
      if s = connecting then (none, connected)
      else (some (.badConnection s connecting connected), s)) ∧
    (ProcessEvent timeoutEvent s = (none, unconnected)) ∧
    (ProcessEvent disconnectSent s =
      (none, if s = unconnected then s else unconnected)) ∧
    (e ≠ handshakeSent → e ≠ timeoutEvent → e ≠ successfullyConnected →
      e ≠ disconnectSent →
      ProcessEvent e s = (some (.unknownEventType e), s)) ∧
    (∀ err, (ProcessEvent e s).1 = some err → (ProcessEvent e s).2 = s) := by
  subst hs
  have hmem := runEvents_mem evs
  refine ⟨?_, ?_, ?_, ?_, ?_, ?_⟩
  · rcases hmem with h | h | h <;> rw [h] <;> decide
  · rcases hmem with h | h | h <;> rw [h] <;> decide
  · rcases hmem with h | h | h <;> rw [h] <;> decide
  · rcases hmem with h | h | h <;> rw [h] <;> decide
  · intro h1 h2 h3 h4
    unfold ProcessEvent
    rw [if_neg h1, if_neg h2, if_neg h3, if_neg h4]
  · intro err herr
    unfold ProcessEvent at herr ⊢
    split_ifs at herr ⊢ <;> simp_all

/-- C2 witness: the table applied on the state reached by a concrete
event sequence (handshake, connect, then an unknown event). -/
theorem processEvent_transition_table_witness :
    ProcessEvent handshakeSent
        (runEvents [handshakeSent, successfullyConnected]) =
      (some (.badHandshake connected unconnected connecting), connected) ∧
    ProcessEvent "bogus" (runEvents [handshakeSent, successfullyConnected]) =
      (some (.unknownEventType "bogus"), connected) := by
  have h := processEvent_transition_table
    [handshakeSent, successfullyConnected] "bogus"
    (runEvents [handshakeSent, successfullyConnected]) rfl
  refine ⟨?_, ?_⟩
  · have h1 := h.1
    rw [h1]
    decide
  · have h5 := h.2.2.2.2.1 (by decide) (by decide) (by decide) (by decide)
    rw [h5]
    decide

/-! ## Message and Advice, from `message.go` -/

/-- The `Advice` record. The `data`-like payloads are irrelevant here;
all fields of the Go struct are carried. Zero values mirror Go's. -/
structure Advice where
  reconnect : String := ""
  timeout : Int := 0
  interval : Int := 0
  multipleClients : Bool := false
  hosts : List String := []
deriving DecidableEq

/-- `Advice.MustNotRetryOrHandshake`. -/
def MustNotRetryOrHandshake (a : Advice) : Bool :=
  a.reconnect = "none"

/-- `Advice.ShouldRetry`. -/
def ShouldRetry (a : Advice) : Bool :=
  a.reconnect = "retry"

/-- `Advice.ShouldHandshake`. -/
def ShouldHandshake (a : Advice) : Bool :=
  a.reconnect = "handshake"

/-- `Advice.TimeoutAsDuration`: the timeout in nanoseconds
(`time.Duration(a.Timeout) * time.Millisecond`). -/
def TimeoutAsDuration (a : Advice) : Int :=
  a.timeout * 1000000

/-- `Advice.IntervalAsDuration`: the interval in nanoseconds
(`time.Duration(a.Interval) * time.Millisecond`). -/
def IntervalAsDuration (a : Advice) : Int :=
  a.interval * 1000000

/-- The `Message` envelope. The Go `Advice` field is a pointer, hence
`Option Advice` (`none` is Go's `nil`); `Data` is opaque raw bytes and
`Ext` an opaque mapping, both unexamined by the code under study.
Channel-valued and error fields are `GoStr` so the channel and error
parsing functions apply to them; the defaults are Go's zero values. -/
structure Message where
  advice : Option Advice := none
  id : String := ""
  channel : BChannel := []
  clientID : String := ""
  data : String := ""
  version : String := ""
  minimumVersion : String := ""
  supportedConnectionTypes : List String := []
  connectionType : String := ""
  timestamp : String := ""
  successful : Bool := false
  authSuccessful : Bool := false
  subscription : BChannel := []
  error : GoStr := []
  ext : List (String × String) := []
deriving DecidableEq

/-- The meta channel `/meta/handshake`. -/
def MetaHandshake : BChannel := "/meta/handshake".toList

/-- The meta channel `/meta/connect`. -/
def MetaConnect : BChannel := "/meta/connect".toList

/-- The meta channel `/meta/subscribe`. -/
def MetaSubscribe : BChannel := "/meta/subscribe".toList

/-- The meta channel `/meta/unsubscribe`. -/
def MetaUnsubscribe : BChannel := "/meta/unsubscribe".toList

/-- The empty channel constant `emptyChannel`. -/
def emptyChannel : BChannel := []

/-! ## C9: the poll loop's advice handling (`client.go`, the
`connectMessageChannel` branch) -/

/-- One iteration of `for _, m := range ms` in the poll loop's
`connectMessageChannel` branch: it evaluates
`m.Advice.ShouldHandshake()` and `m.Advice.IntervalAsDuration()`.
Both methods have value receivers, so calling them through the
`*Advice` pointer dereferences it; a message whose advice is absent
(`nil`) panics, modelled as `none`. On success the result is the pair
(handshake requested?, interval in nanoseconds). -/
def handleConnectMessage (m : Message) : Option (Bool × Int) :=
  match m.advice with
  | none => none
  | some a => some (ShouldHandshake a, IntervalAsDuration a)

/-- The whole `for _, m := range ms` loop of the branch: `none` as soon
as one message panics. -/
def handleConnectMessages : List Message → Option (List (Bool × Int))
  | [] => some []
  | m :: rest =>
    match handleConnectMessage m with
    | none => none
    | some r => (handleConnectMessages rest).map (r :: ·)

/-- C9: CONTRARY to the claim, the advice handling is not total for
messages without an advice record: a `/meta/connect` response message
that omits `advice` makes `m.Advice.ShouldHandshake()` dereference a
nil pointer and crash the poll loop (modelled as `none`), while the
same message with an advice record present is handled fine. -/
theorem poll_advice_nil_panics :
    handleConnectMessages
        [{ channel := MetaConnect, successful := true }] = none ∧
    handleConnectMessages
        [{ channel := MetaConnect, successful := true,
           advice := some { reconnect := "retry", interval := 100 } }] =
      some [(false, 100000000)] :=
  ⟨rfl, rfl⟩

/-! ## C1: the poll loop's connect-branch fan-out (`client.go`) -/

/-- The `for _, m := range ms` delivery loop in the poll loop's
connect-request branch, with `batch`, `lastChannel` and the list of
batches sent so far as explicit state. `reg` says which channels have a
sink in the subscriptions map; a `subscriptions.Get` failure aborts the
loop with that channel as the error (the Go code returns the error).
The loop ends when `ms` is exhausted — the `batch` in hand at that
point is NOT sent anywhere. -/
def deliverAux (reg : BChannel → Bool) :
    List Message → BChannel → List Message →
      List (BChannel × List Message) →
      Except BChannel (List (BChannel × List Message))
  | [], _, _, sent => .ok sent
  | m :: rest, lastChannel, batch, sent =>
    if lastChannel = emptyChannel then
      deliverAux reg rest m.channel (batch ++ [m]) sent
    else if lastChannel = m.channel then
      deliverAux reg rest lastChannel (batch ++ [m]) sent
    else if reg lastChannel then
      deliverAux reg rest m.channel [m] (sent ++ [(lastChannel, batch)])
    else .error lastChannel

/-- The connect-branch fan-out over a response list `ms`: the sequence
of (channel, batch) sends it performs, starting from an empty batch and
`lastChannel = emptyChannel` as in the code. -/
def connectDeliveries (reg : BChannel → Bool)
    (ms : List Message) : Except BChannel (List (BChannel × List Message)) :=
  deliverAux reg ms emptyChannel [] []

/-- The event message on `/foo/bar` used as the failing input. -/
def fooBarEvent : Message := { channel := "/foo/bar".toList, data := "{}" }

/-- A successful `/meta/connect` response message. -/
def connectOkMessage : Message := { channel := MetaConnect, successful := true }

/-- C1: CONTRARY to the claim, the final contiguous run of the response
list is never delivered: the loop only flushes a batch when the channel
changes, and the batch in hand when the list ends is dropped. With
every channel registered, a single-run response (one event on
`/foo/bar`) produces no delivery at all, and a two-run response (the
`/meta/connect` reply followed by the `/foo/bar` event) delivers only
the first run. -/
theorem poll_drops_final_run :
    connectDeliveries (fun _ => true) [fooBarEvent] = .ok [] ∧
    connectDeliveries (fun _ => true) [connectOkMessage, fooBarEvent] =
      .ok [(MetaConnect, [connectOkMessage])] ∧
    connectDeliveries (fun _ => true)
        [fooBarEvent, fooBarEvent, connectOkMessage] =
      .ok [("/foo/bar".toList, [fooBarEvent, fooBarEvent])] :=
  ⟨rfl, rfl, rfl⟩

/-! ## C3: v2 `BayeuxClient.Handshake`, response handling
(`v2/bayeux_client.go` lines 92-111) -/

/-- The errors the handshake response handling can produce:
`HandshakeFailedError{ErrTooManyMessages}`,
`HandshakeFailedError{ErrBadChannel}`, and the handshake-failed error
built by `newHandshakeError` from the server's `error` field. -/
inductive HandshakeFailure where
  | tooManyMessages
  | badChannel
  | notSuccessful (serverError : GoStr)
deriving DecidableEq

/-- Go's `var message Message` zero value. -/
def zeroMessage : Message := {}

/-- The `for _, m := range response` scan that keeps the last message
whose channel is `/meta/handshake`. -/
def findHandshakeMessage (response : List Message) : Message :=
  response.foldl
    (fun acc m => if m.channel = MetaHandshake then m else acc) zeroMessage

/-- `BayeuxClient.Handshake` (v2) from the point where the response has
been parsed: given the parsed response list, the state machine state
and the stored clientId, it returns the error (if any) plus the new
machine state and clientId. On success it stores the handshake
message's clientId and runs `ProcessEvent(successfullyConnected)`,
whose error is discarded (`_ =`). -/
def Handshake (response : List Message) (smState : Int)
    (clientID : String) : Option HandshakeFailure × Int × String :=
  if response.length > 1 then (some .tooManyMessages, smState, clientID)
  else
    let message := findHandshakeMessage response
    if message.channel = emptyChannel then
      (some .badChannel, smState, clientID)
    else if !message.successful then
      (some (.notSuccessful message.error), smState, clientID)
    else
      (none, (ProcessEvent successfullyConnected smState).2, message.clientID)

theorem findHandshakeMessage_of_none (response : List Message)
    (h : ∀ m ∈ response, m.channel ≠ MetaHandshake) :
    findHandshakeMessage response = zeroMessage := by
  suffices hgen : ∀ acc, response.foldl
      (fun acc m => if m.channel = MetaHandshake then m else acc) acc = acc by
    exact hgen zeroMessage
  intro acc
  induction response generalizing acc with
  | nil => rfl
  | cons m rest ih =>
    have hm : m.channel ≠ MetaHandshake := h m (by simp)
    simp only [List.foldl_cons, if_neg hm]
    exact ih (fun x hx => h x (by simp [hx])) acc

/-- C3: the v2 handshake response handling produces
`ErrTooManyMessages` when more than one message came back,
`ErrBadChannel` when (at most one message came back and) none of them
is on `/meta/handshake`, the handshake-failed error wrapping the
server's `error` field when the `/meta/handshake` message has
`successful == false`, and otherwise stores that message's clientId and
moves the state machine (which is in CONNECTING after `handshakeSent`)
to CONNECTED. Every error leaves the machine state and clientId
unchanged. -/
theorem handshake_response_spec (response : List Message) (st : Int)
    (cid : String) :
    (response.length > 1 →
      Handshake response st cid = (some .tooManyMessages, st, cid)) ∧
    (response.length ≤ 1 → (∀ m ∈ response, m.channel ≠ MetaHandshake) →
      Handshake response st cid = (some .badChannel, st, cid)) ∧
    (∀ m, response = [m] → m.channel = MetaHandshake →
      m.successful = false →
      Handshake response st cid = (some (.notSuccessful m.error), st, cid)) ∧
    (∀ m, response = [m] → m.channel = MetaHandshake →
      m.successful = true →
      Handshake response connecting cid = (none, connected, m.clientID)) := by
  refine ⟨?_, ?_, ?_, ?_⟩
  · intro hlen
    rw [Handshake, if_pos hlen]
  · intro hlen hnone
    rw [Handshake, if_neg (by omega),
      findHandshakeMessage_of_none response hnone]
    rfl
  · intro m hresp hch hsucc
    subst hresp
    have hfind : findHandshakeMessage [m] = m := by
      simp [findHandshakeMessage, hch]
    rw [Handshake, if_neg (by simp)]
    simp only [hfind]
    rw [if_neg (by rw [hch]; decide), if_pos (by rw [hsucc]; rfl)]
  · intro m hresp hch hsucc
    subst hresp
    have hfind : findHandshakeMessage [m] = m := by
      simp [findHandshakeMessage, hch]
    rw [Handshake, if_neg (by simp)]
    simp only [hfind]
    rw [if_neg (by rw [hch]; decide), if_neg (by rw [hsucc]; decide)]
    rfl

/-- C3 witness: a successful single-message handshake response stores
the clientId and moves the machine from CONNECTING to CONNECTED, and
the same message marked unsuccessful reports the server's error. -/
theorem handshake_response_spec_witness :
    Handshake [{ channel := MetaHandshake, successful := true,
                 clientID := "abc" }] connecting "" =
      (none, connected, "abc") ∧
    Handshake [{ channel := MetaHandshake, successful := false,
                 error := "401::No client ID".toList }] connecting "" =
      (some (.notSuccessful ("401::No client ID".toList)), connecting, "") := by
  constructor
  · exact (handshake_response_spec _ connecting "").2.2.2 _ rfl rfl rfl
  · exact (handshake_response_spec _ connecting "").2.2.1 _ rfl rfl rfl

/-! ## C7: the subscribe / unsubscribe request builders
(`bayeux_client.go`) -/

/-- `SubscribeRequestBuilder` (and, with the same fields,
`UnsubscribeRequestBuilder`): the clientId set by `AddClientID` and the
accepted channels in insertion order. -/
structure SubscribeRequestBuilder where
  clientID : String := ""
  subscription : List BChannel := []
deriving DecidableEq

/-- `SubscribeRequestBuilder.AddSubscription` (the unsubscribe builder's
method is identical): rejects invalid channels with an error message,
silently returns on a duplicate, otherwise appends the channel. The
returned pair is (error?, updated builder); on an error the builder is
unchanged. -/
def AddSubscription (b : SubscribeRequestBuilder) (c : BChannel) :
    Option String × SubscribeRequestBuilder :=
  if !IsValid c then
    (some "channel appears to not be a valid channel", b)
  else if b.subscription.contains c then (none, b)
  else (none, { b with subscription := b.subscription ++ [c] })

/-- `SubscribeRequestBuilder.Build`: requires a clientId and at least
one accepted channel, then emits one `/meta/subscribe` message per
accepted channel, carrying the clientId and that single channel as the
scalar `subscription` field. -/
def SubscribeBuild (b : SubscribeRequestBuilder) :
    Except String (List Message) :=
  if b.clientID = "" then .error "missing clientID value"
  else if b.subscription.length < 1 then .error "no subscriptions provided"
  else .ok (b.subscription.map fun s =>
    { channel := MetaSubscribe, clientID := b.clientID, subscription := s })

/-- `UnsubscribeRequestBuilder.Build`: identical to `SubscribeBuild`
except the emitted channel is `/meta/unsubscribe`. -/
def UnsubscribeBuild (b : SubscribeRequestBuilder) :
    Except String (List Message) :=
  if b.clientID = "" then .error "missing clientID value"
  else if b.subscription.length < 1 then .error "no subscriptions provided"
  else .ok (b.subscription.map fun s =>
    { channel := MetaUnsubscribe, clientID := b.clientID, subscription := s })

/-- A sequence of `AddSubscription` calls applied in order (each call
leaves the builder unchanged when it reports an error, as the Go method
does). -/
def addAll (b : SubscribeRequestBuilder) (cs : List BChannel) :
    SubscribeRequestBuilder :=
  cs.foldl (fun b c => (AddSubscription b c).2) b

/-- The channels of `cs` that pass `IsValid`, first occurrences only,
in insertion order. -/
def dedupValid (cs : List BChannel) : List BChannel :=
  cs.foldl (fun acc c =>
    if IsValid c && !acc.contains c then acc ++ [c] else acc) []

theorem addAll_subscription (cs : List BChannel) (cid : String) :
    (addAll { clientID := cid } cs).subscription = dedupValid cs := by
  suffices hgen : ∀ (acc : List BChannel),
      (addAll { clientID := cid, subscription := acc } cs).subscription =
        cs.foldl (fun acc c =>
          if IsValid c && !acc.contains c then acc ++ [c] else acc) acc by
    exact hgen []
  intro acc
  induction cs generalizing acc with
  | nil => rfl
  | cons c rest ih =>
    simp only [addAll, dedupValid, List.foldl_cons] at *
    rw [AddSubscription]
    cases hv : IsValid c with
    | false => simpa [hv] using ih acc
    | true =>
      cases hm : acc.contains c with
      | true => simpa [hv, hm] using ih acc
      | false => simpa [hv, hm] using ih (acc ++ [c])

theorem contains_iff_mem (l : List BChannel) (c : BChannel) :
    l.contains c = true ↔ c ∈ l :=
  List.elem_iff

theorem mem_dedupValid (cs : List BChannel) (x : BChannel) :
    x ∈ dedupValid cs ↔ IsValid x = true ∧ x ∈ cs := by
  suffices hgen : ∀ acc : List BChannel,
      x ∈ cs.foldl (fun acc c =>
        if IsValid c && !acc.contains c then acc ++ [c] else acc) acc ↔
        x ∈ acc ∨ (IsValid x = true ∧ x ∈ cs) by
    simpa [dedupValid] using hgen []
  intro acc
  induction cs generalizing acc with
  | nil => simp
  | cons c rest ih =>
    simp only [List.foldl_cons, List.mem_cons]
    cases hval : IsValid c with
    | false =>
      have hxv : x = c → IsValid x = true → False := by
        rintro rfl hx
        rw [hval] at hx
        cases hx
      rw [if_neg (by simp [hval])]
      rw [ih acc]
      constructor
      · rintro (h | ⟨h1, h2⟩)
        · exact Or.inl h
        · exact Or.inr ⟨h1, Or.inr h2⟩
      · rintro (h | ⟨h1, (h2 | h2)⟩)
        · exact Or.inl h
        · exact absurd h1 (by intro hx; exact hxv h2 hx)
        · exact Or.inr ⟨h1, h2⟩
    | true =>
      cases hmem : acc.contains c with
      | true =>
        have hc : c ∈ acc := (contains_iff_mem acc c).mp hmem
        rw [if_neg (by simp [hval, hmem])]
        rw [ih acc]
        constructor
        · rintro (h | ⟨h1, h2⟩)
          · exact Or.inl h
          · exact Or.inr ⟨h1, Or.inr h2⟩
        · rintro (h | ⟨h1, (h2 | h2)⟩)
          · exact Or.inl h
          · exact Or.inl (h2 ▸ hc)
          · exact Or.inr ⟨h1, h2⟩
      | false =>
        rw [if_pos (by simp [hval, hmem])]
        rw [ih (acc ++ [c])]
        simp only [List.mem_append, List.mem_singleton]
        constructor
        · rintro ((h | h) | ⟨h1, h2⟩)
          · exact Or.inl h
          · exact Or.inr ⟨h ▸ hval, Or.inl h⟩
          · exact Or.inr ⟨h1, Or.inr h2⟩
        · rintro (h | ⟨h1, (h2 | h2)⟩)
          · exact Or.inl (Or.inl h)
          · exact Or.inl (Or.inr h2)
          · exact Or.inr ⟨h1, h2⟩

theorem dedupValid_nodup (cs : List BChannel) : (dedupValid cs).Nodup := by
  suffices hgen : ∀ acc : List BChannel, acc.Nodup →
      (cs.foldl (fun acc c =>
        if IsValid c && !acc.contains c then acc ++ [c] else acc) acc).Nodup by
    exact hgen [] (by simp)
  intro acc hacc
  induction cs generalizing acc with
  | nil => simpa using hacc
  | cons c rest ih =>
    simp only [List.foldl_cons]
    cases hval : IsValid c with
    | false =>
      rw [if_neg (by simp [hval])]
      exact ih acc hacc
    | true =>
      cases hmem : acc.contains c with
      | true =>
        rw [if_neg (by simp [hval, hmem])]
        exact ih acc hacc
      | false =>
        rw [if_pos (by simp [hval, hmem])]
        refine ih (acc ++ [c]) ?_
        have hc : c ∉ acc := by
          intro hm
          rw [(contains_iff_mem acc c).mpr hm] at hmem
          cases hmem
        rw [← List.concat_eq_append]
        exact hacc.concat hc

/-- C7: for every sequence of `AddSubscription` calls followed by
`Build` on the subscribe (resp. unsubscribe) builder: `AddSubscription`
rejects invalid channels with an error and leaves the builder
unchanged, silently drops duplicates, and otherwise appends, so the
accepted channels are exactly the distinct valid channels in
first-insertion order (no duplicates); `Build` fails when the clientId
is empty or no channel was accepted; and on success `Build` returns
exactly one message per accepted channel, carrying `/meta/subscribe`
(resp. `/meta/unsubscribe`), the clientId, and that single channel as
its scalar subscription field. -/
theorem subscribe_builders_spec (cid : String) (cs : List BChannel) :
    (∀ b c, IsValid c = false →
      AddSubscription b c =
        (some "channel appears to not be a valid channel", b)) ∧
    (∀ b c, IsValid c = true → c ∈ b.subscription →
      AddSubscription b c = (none, b)) ∧
    (∀ b c, IsValid c = true → c ∉ b.subscription →
      AddSubscription b c =
        (none, { b with subscription := b.subscription ++ [c] })) ∧
    ((addAll { clientID := cid } cs).subscription = dedupValid cs) ∧
    ((dedupValid cs).Nodup) ∧
    (∀ x, x ∈ dedupValid cs ↔ IsValid x = true ∧ x ∈ cs) ∧
    (cid = "" →
      SubscribeBuild (addAll { clientID := cid } cs) =
          .error "missing clientID value" ∧
        UnsubscribeBuild (addAll { clientID := cid } cs) =
          .error "missing clientID value") ∧
    (cid ≠ "" → dedupValid cs = [] →
      SubscribeBuild (addAll { clientID := cid } cs) =
          .error "no subscriptions provided" ∧
        UnsubscribeBuild (addAll { clientID := cid } cs) =
          .error "no subscriptions provided") ∧
    (cid ≠ "" → dedupValid cs ≠ [] →
      SubscribeBuild (addAll { clientID := cid } cs) =
          .ok ((dedupValid cs).map fun s =>
            { channel := MetaSubscribe, clientID := cid,
              subscription := s }) ∧
        UnsubscribeBuild (addAll { clientID := cid } cs) =
          .ok ((dedupValid cs).map fun s =>
            { channel := MetaUnsubscribe, clientID := cid,
              subscription := s })) := by
  have hcid : (addAll { clientID := cid } cs).clientID = cid := by
    suffices hgen : ∀ b : SubscribeRequestBuilder,
        (addAll b cs).clientID = b.clientID by
      exact hgen { clientID := cid }
    intro b
    induction cs generalizing b with
    | nil => rfl
    | cons c rest ih =>
      simp only [addAll, List.foldl_cons] at *
      rw [AddSubscription]
      split_ifs <;> exact ih _
  have hsubs := addAll_subscription cs cid
  refine ⟨?_, ?_, ?_, hsubs, dedupValid_nodup cs,
    fun x => mem_dedupValid cs x, ?_, ?_, ?_⟩
  · intro b c hv
    rw [AddSubscription, if_pos (by simp [hv])]
  · intro b c hv hmem
    rw [AddSubscription, if_neg (by simp [hv]),
      if_pos ((contains_iff_mem _ _).mpr hmem)]
  · intro b c hv hmem
    rw [AddSubscription, if_neg (by simp [hv]),
      if_neg (by rw [contains_iff_mem]; exact hmem)]
  · intro h0
    rw [SubscribeBuild, UnsubscribeBuild, hcid, if_pos h0, if_pos h0]
    exact ⟨rfl, rfl⟩
  · intro h0 hnil
    have hlen : (addAll { clientID := cid } cs).subscription.length < 1 := by
      rw [hsubs, hnil]
      decide
    rw [SubscribeBuild, UnsubscribeBuild, hcid, if_neg h0, if_neg h0,
      if_pos hlen, if_pos hlen]
    exact ⟨rfl, rfl⟩
  · intro h0 hnil
    have hlen : ¬ (addAll { clientID := cid } cs).subscription.length < 1 := by
      rw [hsubs]
      have := List.length_pos.mpr hnil
      omega
    rw [SubscribeBuild, UnsubscribeBuild, hcid, if_neg h0, if_neg h0,
      if_neg hlen, if_neg hlen, hsubs]
    exact ⟨rfl, rfl⟩

/-- C7 witness: the builder run with clientId `abc` on the sequence
`/foo/bar`, `bad` (invalid: no leading slash), `/foo/bar` (duplicate),
`/baz` emits exactly one subscribe envelope per distinct valid channel,
in insertion order. -/
theorem subscribe_builders_spec_witness :
    SubscribeBuild (addAll { clientID := "abc" }
        ["/foo/bar".toList, "bad".toList, "/foo/bar".toList,
          "/baz".toList]) =
      .ok [{ channel := MetaSubscribe, clientID := "abc",
             subscription := "/foo/bar".toList },
           { channel := MetaSubscribe, clientID := "abc",
             subscription := "/baz".toList }] := by
  have h := (subscribe_builders_spec "abc"
    ["/foo/bar".toList, "bad".toList, "/foo/bar".toList,
      "/baz".toList]).2.2.2.2.2.2.2.2 (by decide) (by decide)
  rw [h.1]
  rfl

/-! ## C8: `Message.ParseError`, from `message.go` -/

/-- Splitting off everything before the first occurrence of `sep`:
`none` when `sep` does not occur. The building block for Go's
`strings.SplitN` and `strings.Split`. -/
def splitOnce (sep : Char) : GoStr → Option (GoStr × GoStr)
  | [] => none
  | c :: rest =>
    if c = sep then some ([], rest)
    else (splitOnce sep rest).map (fun p => (c :: p.1, p.2))

/-- Go `strings.SplitN(s, sep, n)` for a one-character separator and
`n ≥ 0`: at most `n` pieces, the last piece holding the unsplit rest. -/
def goSplitN (sep : Char) : Nat → GoStr → List GoStr
  | 0, _ => []
  | 1, s => [s]
  | n + 2, s =>
    match splitOnce sep s with
    | none => [s]
    | some (a, b) => a :: goSplitN sep (n + 1) b

/-- Go `strings.Split(s, sep)` for a one-character separator: split
around every occurrence (`List.splitOn` has exactly these semantics,
including `Split("", sep) == [""]`). -/
def goSplit (sep : Char) (s : GoStr) : List GoStr :=
  s.splitOn sep

/-- A digit-accumulating loop: the numeric value of a digit string, or
`none` at the first non-digit, as in Go's `strconv.ParseInt` base-10
loop. -/
def parseDigitsAux : GoStr → Nat → Option Nat
  | [], acc => some acc
  | c :: cs, acc =>
    if '0' ≤ c ∧ c ≤ '9' then
      parseDigitsAux cs (acc * 10 + (c.toNat - 48))
    else none

/-- Go `strconv.Atoi` (= `ParseInt(s, 10, 0)` with 64-bit `int`): an
optional `+`/`-` sign followed by at least one base-10 digit, the value
required to fit in `int64`. -/
def goAtoi (s : GoStr) : Option Int :=
  match s with
  | [] => none
  | _ =>
    let signAndDigits :=
      match s with
      | '-' :: r => (true, r)
      | '+' :: r => (false, r)
      | r => (false, r)
    match signAndDigits.2 with
    | [] => none
    | _ =>
      match parseDigitsAux signAndDigits.2 0 with
      | none => none
      | some n =>
        let v : Int := if signAndDigits.1 then -(n : Int) else (n : Int)
        if v < -(2 ^ 63) ∨ 2 ^ 63 - 1 < v then none else some v

/-- `MessageError`: the parsed form of a message's `error` field. -/
structure MessageError where
  errorCode : Int
  errorArgs : List GoStr
  errorMessage : GoStr
deriving DecidableEq

/-- `Message.ParseError`: split the `error` field on `:` into exactly
three pieces (`SplitN(..., 3)`), parse the first with `Atoi`, split the
second on `,`, and keep the third verbatim; any other shape is an
error (`none`). -/
def ParseError (m : Message) : Option MessageError :=
  match goSplitN ':' 3 m.error with
  | [p0, p1, p2] =>
    match goAtoi p0 with
    | none => none
    | some code => some ⟨code, goSplit ',' p1, p2⟩
  | _ => none

theorem splitOnce_eq_none_iff (sep : Char) (s : GoStr) :
    splitOnce sep s = none ↔ sep ∉ s := by
  induction s with
  | nil => simp [splitOnce]
  | cons c rest ih =>
    by_cases hc : c = sep
    · subst hc
      simp [splitOnce]
    · simp only [splitOnce, if_neg hc, List.mem_cons]
      cases hsp : splitOnce sep rest with
      | none =>
        rw [hsp] at ih
        simp only [Option.map_none']
        constructor
        · intro _
          rintro (h | h)
          · exact hc h.symm
          · exact (ih.mp rfl) h
        · intro _
          trivial
      | some p =>
        rw [hsp] at ih
        simp only [Option.map_some']
        constructor
        · intro h
          cases h
        · intro h
          exfalso
          refine (?_ : sep ∈ rest → False) ?_
          · intro hm
            exact h (Or.inr hm)
          · by_contra hnm
            exact absurd (ih.mpr hnm) (by simp)

theorem splitOnce_some_decomp (sep : Char) (s a b : GoStr)
    (h : splitOnce sep s = some (a, b)) :
    s = a ++ sep :: b ∧ sep ∉ a := by
  induction s generalizing a b with
  | nil => simp [splitOnce] at h
  | cons c rest ih =>
    by_cases hc : c = sep
    · subst hc
      rw [splitOnce, if_pos rfl] at h
      simp only [Option.some.injEq, Prod.mk.injEq] at h
      obtain ⟨ha, hb⟩ := h
      subst ha
      subst hb
      simp
    · rw [splitOnce, if_neg hc] at h
      cases hsp : splitOnce sep rest with
      | none =>
        rw [hsp] at h
        cases h
      | some p =>
        rw [hsp] at h
        simp only [Option.map_some', Option.some.injEq] at h
        obtain ⟨ha, hb⟩ : c :: p.1 = a ∧ p.2 = b := by
          constructor
          · exact congrArg Prod.fst h
          · exact congrArg Prod.snd h
        obtain ⟨hs, hna⟩ := ih p.1 p.2 (by rw [hsp])
        subst ha
        subst hb
        constructor
        · rw [List.cons_append, ← hs]
        · simp only [List.mem_cons, not_or]
          exact ⟨fun hh => hc hh.symm, hna⟩

theorem goCount_append (s t : GoStr) (c : Char) :
    goCount (s ++ t) c = goCount s c + goCount t c := by
  induction s with
  | nil => simp [goCount]
  | cons x xs ih =>
    show (if x = c then 1 else 0) + goCount (xs ++ t) c =
      (if x = c then 1 else 0) + goCount xs c + goCount t c
    rw [ih]
    omega

theorem goCount_eq_zero_iff (s : GoStr) (c : Char) :
    goCount s c = 0 ↔ c ∉ s := by
  rw [goCount_eq_count, List.count_eq_zero]

theorem splitOnce_count (sep : Char) (s a b : GoStr)
    (h : splitOnce sep s = some (a, b)) :
    goCount s sep = goCount b sep + 1 := by
  obtain ⟨hs, hna⟩ := splitOnce_some_decomp sep s a b h
  rw [hs, goCount_append, (goCount_eq_zero_iff a sep).mpr hna]
  simp [goCount]
  omega

theorem goSplitN3_of_count_lt (s : GoStr) (h : goCount s ':' < 2) :
    (goSplitN ':' 3 s).length < 3 := by
  show (goSplitN ':' (1 + 2) s).length < 3
  rw [goSplitN]
  cases hsp : splitOnce ':' s with
  | none => simp
  | some p =>
    have hcnt := splitOnce_count ':' s p.1 p.2 (by rw [hsp])
    have hb : goCount p.2 ':' = 0 := by omega
    have hnb : ':' ∉ p.2 := (goCount_eq_zero_iff p.2 ':').mp hb
    have hsp2 : splitOnce ':' p.2 = none := (splitOnce_eq_none_iff ':' p.2).mpr hnb
    show (p.1 :: goSplitN ':' (0 + 2) p.2).length < 3
    rw [goSplitN, hsp2]
    simp

theorem goSplitN3_of_count_ge (s : GoStr) (h : 2 ≤ goCount s ':') :
    ∃ p0 p1 p2, goSplitN ':' 3 s = [p0, p1, p2] := by
  have hmem : ':' ∈ s := by
    by_contra hn
    rw [(goCount_eq_zero_iff s ':').mpr hn] at h
    omega
  cases hsp : splitOnce ':' s with
  | none => exact absurd ((splitOnce_eq_none_iff ':' s).mp hsp) (by simp [hmem])
  | some p =>
    have hcnt := splitOnce_count ':' s p.1 p.2 (by rw [hsp])
    have hmem2 : ':' ∈ p.2 := by
      by_contra hn
      rw [(goCount_eq_zero_iff p.2 ':').mpr hn] at hcnt
      omega
    cases hsp2 : splitOnce ':' p.2 with
    | none =>
      exact absurd ((splitOnce_eq_none_iff ':' p.2).mp hsp2) (by simp [hmem2])
    | some q =>
      refine ⟨p.1, q.1, q.2, ?_⟩
      show goSplitN ':' (1 + 2) s = [p.1, q.1, q.2]
      rw [goSplitN, hsp]
      show p.1 :: goSplitN ':' (0 + 2) p.2 = [p.1, q.1, q.2]
      rw [goSplitN, hsp2]
      rfl

/-- C8: `ParseError` fails on every error string with fewer than two
`:` separators; with at least two separators `SplitN` yields exactly
three parts (code, args, message — the last keeping any further `:`);
the result is an error when `Atoi` rejects the code and otherwise the
parsed triple, with the second part split on `,` (the empty args field
giving the one-element list containing the empty string); in
particular `ParseError` on `"401::No client ID"` returns
`{401, [""], "No client ID"}`. -/
theorem parseError_spec (m : Message) :
    (goCount m.error ':' < 2 → ParseError m = none) ∧
    (2 ≤ goCount m.error ':' →
      ∃ p0 p1 p2, goSplitN ':' 3 m.error = [p0, p1, p2]) ∧
    (∀ p0 p1 p2, goSplitN ':' 3 m.error = [p0, p1, p2] →
      (goAtoi p0 = none → ParseError m = none) ∧
      (∀ n, goAtoi p0 = some n →
        ParseError m = some ⟨n, goSplit ',' p1, p2⟩)) ∧
    goSplit ',' [] = [[]] ∧
    ParseError { error := "401::No client ID".toList } =
      some ⟨401, [[]], "No client ID".toList⟩ := by
  refine ⟨?_, goSplitN3_of_count_ge m.error, ?_, rfl, rfl⟩
  · intro hcnt
    have hlen := goSplitN3_of_count_lt m.error hcnt
    rw [ParseError]
    rcases hr : goSplitN ':' 3 m.error with _ | ⟨p0, _ | ⟨p1, _ | ⟨p2, rest⟩⟩⟩
    · rfl
    · rfl
    · rfl
    · rw [hr] at hlen
      simp only [List.length_cons] at hlen
      exfalso
      omega
  · intro p0 p1 p2 hr
    constructor
    · intro ha
      rw [ParseError, hr]
      show (match goAtoi p0 with
        | none => none
        | some code =>
          some ({ errorCode := code, errorArgs := goSplit ',' p1,
                  errorMessage := p2 } : MessageError)) = none
      rw [ha]
    · intro n ha
      rw [ParseError, hr]
      show (match goAtoi p0 with
        | none => none
        | some code =>
          some ({ errorCode := code, errorArgs := goSplit ',' p1,
                  errorMessage := p2 } : MessageError)) =
        some ({ errorCode := n, errorArgs := goSplit ',' p1,
                errorMessage := p2 } : MessageError)
      rw [ha]

/-- C8 witness: the characterization applied to the spec's boundary
strings `404:/foo/bar:Unknown Channel` (parses) and
`4o4:/foo/bar:Broken` (non-integer code, fails). -/
theorem parseError_spec_witness :
    ParseError { error := "404:/foo/bar:Unknown Channel".toList } =
      some ⟨404, ["/foo/bar".toList], "Unknown Channel".toList⟩ ∧
    ParseError { error := "4o4:/foo/bar:Broken".toList } = none := by
  constructor
  · have h := (parseError_spec
      { error := "404:/foo/bar:Unknown Channel".toList }).2.2.1
      ("404".toList) ("/foo/bar".toList) ("Unknown Channel".toList)
      (by decide)
    rw [(h.2) 404 (by decide)]
    rfl
  · have h := (parseError_spec { error := "4o4:/foo/bar:Broken".toList }).2.2.1
      ("4o4".toList) ("/foo/bar".toList) ("Broken".toList) (by decide)
    exact h.1 (by decide)
